import Mathlib

/-!
Verification of the layout operations of `src/src/alignment.ts` (the
diagramatics alignment/distribution module).

The `Diagram` collaborator (`diagram.ts`) is not part of the sources, so it
is modelled from the spec: a diagram is specified only through its bounding
extents; anchors live on the 3×3 grid over the bounding box, `translate`
returns a new shifted object, and `diagram_combine` merges a sequence while
preserving each member's position.  Coordinates are rationals (the spec's
real-valued 2D space, made exact).
-/

/-- 2D vector / point with rational coordinates (`Vector2` of `vector.ts`,
used both as position and as displacement). -/
structure Vector2 where
  x : ℚ
  y : ℚ
deriving DecidableEq, Repr, Inhabited

/-- `V2(x, y)` constructor from `vector.ts`. -/
def V2 (x y : ℚ) : Vector2 := ⟨x, y⟩

/-- Modelled from the spec: the `Diagram` collaborator of `diagram.ts`
(not under `src/`).  The spec requires only bounding-extent data: "anchors
arranged on a 3×3 grid" over the bounding geometry, and "two objects with
identical bounding extents yield identical anchor positions", so a diagram
is its bounding box. -/
structure Diagram where
  xmin : ℚ
  xmax : ℚ
  ymin : ℚ
  ymax : ℚ
deriving DecidableEq, Repr, Inhabited

/-- The fixed vocabulary of the nine grid anchor names
({left, center, right} × {top, center, bottom}). -/
inductive AnchorName where
  | topLeft | topCenter | topRight
  | centerLeft | centerCenter | centerRight
  | bottomLeft | bottomCenter | bottomRight
deriving DecidableEq, Repr

/-- Modelled from the spec: `get_anchor` of the `Diagram` collaborator —
anchor lookup on the 3×3 grid of the bounding box (y increases upward, as
in the upstream library; none of the verified properties depend on the
vertical direction convention). -/
def get_anchor (d : Diagram) : AnchorName → Vector2
  | AnchorName.topLeft      => ⟨d.xmin, d.ymax⟩
  | AnchorName.topCenter    => ⟨(d.xmin + d.xmax) / 2, d.ymax⟩
  | AnchorName.topRight     => ⟨d.xmax, d.ymax⟩
  | AnchorName.centerLeft   => ⟨d.xmin, (d.ymin + d.ymax) / 2⟩
  | AnchorName.centerCenter => ⟨(d.xmin + d.xmax) / 2, (d.ymin + d.ymax) / 2⟩
  | AnchorName.centerRight  => ⟨d.xmax, (d.ymin + d.ymax) / 2⟩
  | AnchorName.bottomLeft   => ⟨d.xmin, d.ymin⟩
  | AnchorName.bottomCenter => ⟨(d.xmin + d.xmax) / 2, d.ymin⟩
  | AnchorName.bottomRight  => ⟨d.xmax, d.ymin⟩

/-- Modelled from the spec: `translate` of the `Diagram` collaborator —
"returns a new, independent object shifted by the displacement". -/
def Diagram.translate (d : Diagram) (v : Vector2) : Diagram :=
  ⟨d.xmin + v.x, d.xmax + v.x, d.ymin + v.y, d.ymax + v.y⟩

/-- Modelled from the spec: the result of `diagram_combine` — one composite
object "preserving each member's position"; its member diagrams are
recoverable in order. -/
structure CombinedDiagram where
  members : List Diagram
deriving DecidableEq, Repr

/-- Modelled from the spec: `diagram_combine` of `diagram.ts` — merges a
sequence of diagrams into one composite, order and positions preserved. -/
def diagram_combine (diagrams : List Diagram) : CombinedDiagram :=
  ⟨diagrams⟩

/-- `align_vertical` from `alignment.ts` (lines 14–33).  The thrown
`Error("Unknown vertical alignment : " + alignment)` is embedded as
`Except.error`. -/
def align_vertical (diagrams : List Diagram) (alignment : String) :
    Except String (List Diagram) :=
  match diagrams with
  | [] => Except.ok []
  | d0 :: rest =>
    if alignment = "top" then
      let top_y := (get_anchor d0 AnchorName.topLeft).y
      Except.ok ((d0 :: rest).map fun d =>
        d.translate (V2 0 (top_y - (get_anchor d AnchorName.topLeft).y)))
    else if alignment = "center" then
      let center_y := (get_anchor d0 AnchorName.centerLeft).y
      Except.ok ((d0 :: rest).map fun d =>
        d.translate (V2 0 (center_y - (get_anchor d AnchorName.centerLeft).y)))
    else if alignment = "bottom" then
      let bottom_y := (get_anchor d0 AnchorName.bottomLeft).y
      Except.ok ((d0 :: rest).map fun d =>
        d.translate (V2 0 (bottom_y - (get_anchor d AnchorName.bottomLeft).y)))
    else
      Except.error ("Unknown vertical alignment : " ++ alignment)

/-- `align_horizontal` from `alignment.ts` (lines 42–62). -/
def align_horizontal (diagrams : List Diagram) (alignment : String) :
    Except String (List Diagram) :=
  match diagrams with
  | [] => Except.ok []
  | d0 :: rest =>
    if alignment = "left" then
      let left_x := (get_anchor d0 AnchorName.topLeft).x
      Except.ok ((d0 :: rest).map fun d =>
        d.translate (V2 (left_x - (get_anchor d AnchorName.topLeft).x) 0))
    else if alignment = "center" then
      let center_x := (get_anchor d0 AnchorName.topCenter).x
      Except.ok ((d0 :: rest).map fun d =>
        d.translate (V2 (center_x - (get_anchor d AnchorName.topCenter).x) 0))
    else if alignment = "right" then
      let right_x := (get_anchor d0 AnchorName.topRight).x
      Except.ok ((d0 :: rest).map fun d =>
        d.translate (V2 (right_x - (get_anchor d AnchorName.topRight).x) 0))
    else
      Except.error ("Unknown horizontal alignment : " ++ alignment)

/-- The loop of `distribute_horizontal` (lines 74–81): `prev` is the
diagram placed at the previous index of the output being built
(`distributed_diagrams[i-1]`), `this_diagram` the original input at the
current index. -/
def distribute_horizontal_go (space : ℚ) (prev : Diagram) :
    List Diagram → List Diagram
  | [] => []
  | this_diagram :: rest =>
    let prev_right := (get_anchor prev AnchorName.topRight).x
    let this_left := (get_anchor this_diagram AnchorName.topLeft).x
    let dx := prev_right - this_left + space
    let placed := this_diagram.translate (V2 dx 0)
    placed :: distribute_horizontal_go space placed rest

/-- `distribute_horizontal` from `alignment.ts` (lines 70–83). -/
def distribute_horizontal (diagrams : List Diagram) (space : ℚ) :
    List Diagram :=
  match diagrams with
  | [] => []
  | d0 :: rest => d0 :: distribute_horizontal_go space d0 rest

/-- The loop of `distribute_vertical` (lines 95–102). -/
def distribute_vertical_go (space : ℚ) (prev : Diagram) :
    List Diagram → List Diagram
  | [] => []
  | this_diagram :: rest =>
    let prev_bottom := (get_anchor prev AnchorName.bottomLeft).y
    let this_top := (get_anchor this_diagram AnchorName.topLeft).y
    let dy := prev_bottom - this_top - space
    let placed := this_diagram.translate (V2 0 dy)
    placed :: distribute_vertical_go space placed rest

/-- `distribute_vertical` from `alignment.ts` (lines 91–104). -/
def distribute_vertical (diagrams : List Diagram) (space : ℚ) :
    List Diagram :=
  match diagrams with
  | [] => []
  | d0 :: rest => d0 :: distribute_vertical_go space d0 rest

/-- `distribute_horizontal_and_align` from `alignment.ts` (lines 114–117);
the exception of `align_vertical` propagates to the caller. -/
def distribute_horizontal_and_align (diagrams : List Diagram)
    (horizontal_space : ℚ) (alignment : String) :
    Except String (List Diagram) :=
  match align_vertical diagrams alignment with
  | Except.error e => Except.error e
  | Except.ok l => Except.ok (distribute_horizontal l horizontal_space)

/-- `distribute_vertical_and_align` from `alignment.ts` (lines 127–130). -/
def distribute_vertical_and_align (diagrams : List Diagram)
    (vertical_space : ℚ) (alignment : String) :
    Except String (List Diagram) :=
  match align_horizontal diagrams alignment with
  | Except.error e => Except.error e
  | Except.ok l => Except.ok (distribute_vertical l vertical_space)

/-- `align_vertical_c` from `alignment.ts` (lines 133–135). -/
def align_vertical_c (diagrams : List Diagram) (alignment : String) :
    Except String CombinedDiagram :=
  match align_vertical diagrams alignment with
  | Except.error e => Except.error e
  | Except.ok l => Except.ok (diagram_combine l)

/-- `align_horizontal_c` from `alignment.ts` (lines 136–138). -/
def align_horizontal_c (diagrams : List Diagram) (alignment : String) :
    Except String CombinedDiagram :=
  match align_horizontal diagrams alignment with
  | Except.error e => Except.error e
  | Except.ok l => Except.ok (diagram_combine l)

/-- `distribute_horizontal_c` from `alignment.ts` (lines 139–141). -/
def distribute_horizontal_c (diagrams : List Diagram) (space : ℚ) :
    CombinedDiagram :=
  diagram_combine (distribute_horizontal diagrams space)

/-- `distribute_vertical_c` from `alignment.ts` (lines 142–144). -/
def distribute_vertical_c (diagrams : List Diagram) (space : ℚ) :
    CombinedDiagram :=
  diagram_combine (distribute_vertical diagrams space)

/-- `distribute_horizontal_and_align_c` from `alignment.ts` (lines 145–148). -/
def distribute_horizontal_and_align_c (diagrams : List Diagram)
    (horizontal_space : ℚ) (alignment : String) :
    Except String CombinedDiagram :=
  match distribute_horizontal_and_align diagrams horizontal_space alignment with
  | Except.error e => Except.error e
  | Except.ok l => Except.ok (diagram_combine l)

/-- `distribute_vertical_and_align_c` from `alignment.ts` (lines 149–152). -/
def distribute_vertical_and_align_c (diagrams : List Diagram)
    (vertical_space : ℚ) (alignment : String) :
    Except String CombinedDiagram :=
  match distribute_vertical_and_align diagrams vertical_space alignment with
  | Except.error e => Except.error e
  | Except.ok l => Except.ok (diagram_combine l)

/-! ### Basic facts about the modelled collaborator -/

/-- Translating shifts every anchor by exactly the displacement. -/
lemma get_anchor_translate (d : Diagram) (v : Vector2) (a : AnchorName) :
    get_anchor (d.translate v) a =
      ⟨(get_anchor d a).x + v.x, (get_anchor d a).y + v.y⟩ := by
  cases a <;> simp only [get_anchor, Diagram.translate] <;> congr 1 <;> ring

/-- Translating by the zero displacement is the identity. -/
lemma Diagram.translate_zero (d : Diagram) : d.translate (V2 0 0) = d := by
  cases d
  simp [Diagram.translate, V2]

/-- Two translations compose by adding displacements. -/
lemma Diagram.translate_translate (d : Diagram) (u v : Vector2) :
    (d.translate u).translate v = d.translate ⟨u.x + v.x, u.y + v.y⟩ := by
  simp only [Diagram.translate]
  congr 1 <;> ring

lemma V2_x (x y : ℚ) : (V2 x y).x = x := rfl

lemma V2_y (x y : ℚ) : (V2 x y).y = y := rfl

/-- `getD` commutes with `map` at indices inside the list. -/
lemma getD_map_lt (f : Diagram → Diagram) (l : List Diagram) (i : ℕ)
    (h : i < l.length) :
    (l.map f).getD i default = f (l.getD i default) := by
  induction l generalizing i with
  | nil => simp at h
  | cons hd tl ih =>
    cases i with
    | zero => simp
    | succ j =>
      simp only [List.map_cons, List.getD_cons_succ]
      exact ih j (by simpa using h)

/-! ### Unfolding lemmas for the alignment branches -/

lemma align_vertical_cons_top (d0 : Diagram) (rest : List Diagram) :
    align_vertical (d0 :: rest) "top" =
      Except.ok ((d0 :: rest).map fun d =>
        d.translate (V2 0 ((get_anchor d0 AnchorName.topLeft).y -
          (get_anchor d AnchorName.topLeft).y))) := rfl

lemma align_vertical_cons_center (d0 : Diagram) (rest : List Diagram) :
    align_vertical (d0 :: rest) "center" =
      Except.ok ((d0 :: rest).map fun d =>
        d.translate (V2 0 ((get_anchor d0 AnchorName.centerLeft).y -
          (get_anchor d AnchorName.centerLeft).y))) := rfl

lemma align_vertical_cons_bottom (d0 : Diagram) (rest : List Diagram) :
    align_vertical (d0 :: rest) "bottom" =
      Except.ok ((d0 :: rest).map fun d =>
        d.translate (V2 0 ((get_anchor d0 AnchorName.bottomLeft).y -
          (get_anchor d AnchorName.bottomLeft).y))) := rfl

lemma align_horizontal_cons_left (d0 : Diagram) (rest : List Diagram) :
    align_horizontal (d0 :: rest) "left" =
      Except.ok ((d0 :: rest).map fun d =>
        d.translate (V2 ((get_anchor d0 AnchorName.topLeft).x -
          (get_anchor d AnchorName.topLeft).x) 0)) := rfl

lemma align_horizontal_cons_center (d0 : Diagram) (rest : List Diagram) :
    align_horizontal (d0 :: rest) "center" =
      Except.ok ((d0 :: rest).map fun d =>
        d.translate (V2 ((get_anchor d0 AnchorName.topCenter).x -
          (get_anchor d AnchorName.topCenter).x) 0)) := rfl

lemma align_horizontal_cons_right (d0 : Diagram) (rest : List Diagram) :
    align_horizontal (d0 :: rest) "right" =
      Except.ok ((d0 :: rest).map fun d =>
        d.translate (V2 ((get_anchor d0 AnchorName.topRight).x -
          (get_anchor d AnchorName.topRight).x) 0)) := rfl

lemma align_vertical_cons_unknown (d0 : Diagram) (rest : List Diagram)
    (m : String) (hm : ¬(m = "top" ∨ m = "center" ∨ m = "bottom")) :
    align_vertical (d0 :: rest) m =
      Except.error ("Unknown vertical alignment : " ++ m) := by
  push_neg at hm
  simp [align_vertical, hm.1, hm.2.1, hm.2.2]

lemma align_horizontal_cons_unknown (d0 : Diagram) (rest : List Diagram)
    (m : String) (hm : ¬(m = "left" ∨ m = "center" ∨ m = "right")) :
    align_horizontal (d0 :: rest) m =
      Except.error ("Unknown horizontal alignment : " ++ m) := by
  push_neg at hm
  simp [align_horizontal, hm.1, hm.2.1, hm.2.2]

/-! ### Claim theorems -/

/-- C5: on the empty input sequence, `align_vertical`, `align_horizontal`,
`distribute_horizontal` and `distribute_vertical` all return the empty
sequence and raise no error, for every mode string and every gap value. -/
theorem empty_input_returns_empty (m : String) (g : ℚ) :
    align_vertical [] m = Except.ok [] ∧
    align_horizontal [] m = Except.ok [] ∧
    distribute_horizontal [] g = [] ∧
    distribute_vertical [] g = [] :=
  ⟨rfl, rfl, rfl, rfl⟩

/-- C10: in `align_vertical` and `align_horizontal` the empty-sequence
check precedes mode validation, so on the empty sequence even a mode
string outside the enumerated set yields the empty sequence, not the
unknown-mode error. -/
theorem empty_seq_bypasses_mode_validation (m : String)
    (hv : ¬(m = "top" ∨ m = "center" ∨ m = "bottom"))
    (hh : ¬(m = "left" ∨ m = "center" ∨ m = "right")) :
    align_vertical [] m = Except.ok [] ∧
    align_horizontal [] m = Except.ok [] :=
  ⟨rfl, rfl⟩

/-- Witness for C10 at the concrete unknown mode "diagonal". -/
theorem empty_seq_bypasses_mode_validation_witness :
    align_vertical [] "diagonal" = Except.ok [] ∧
    align_horizontal [] "diagonal" = Except.ok [] :=
  empty_seq_bypasses_mode_validation "diagonal" (by decide) (by decide)

/-- C4 counterexample: the claim quantifies over *every* sequence, but on
the empty sequence an unknown mode ("diagonal", outside
{top, center, bottom}) produces the empty output sequence and no error:
the empty-sequence early return precedes mode validation. -/
theorem unknown_mode_empty_counterexample :
    ¬("diagonal" = "top" ∨ "diagonal" = "center" ∨ "diagonal" = "bottom") ∧
    align_vertical ([] : List Diagram) "diagonal" = Except.ok [] :=
  ⟨by decide, rfl⟩

/-- C4 (amended to non-empty sequences): for every non-empty sequence,
calling `align_vertical` with a mode outside {top, center, bottom}
(respectively `align_horizontal` with a mode outside {left, center, right})
yields the error naming the unknown mode and produces no output sequence. -/
theorem unknown_mode_errors (S : List Diagram) (mv mh : String)
    (hS : S ≠ [])
    (hv : ¬(mv = "top" ∨ mv = "center" ∨ mv = "bottom"))
    (hh : ¬(mh = "left" ∨ mh = "center" ∨ mh = "right")) :
    align_vertical S mv = Except.error ("Unknown vertical alignment : " ++ mv) ∧
    align_horizontal S mh = Except.error ("Unknown horizontal alignment : " ++ mh) := by
  obtain ⟨d0, rest, rfl⟩ := List.exists_cons_of_ne_nil hS
  exact ⟨align_vertical_cons_unknown d0 rest mv hv,
    align_horizontal_cons_unknown d0 rest mh hh⟩

/-- Witness for the amended C4 on a concrete singleton sequence and the
concrete unknown modes "diagonal" and "up". -/
theorem unknown_mode_errors_witness :
    align_vertical [⟨0, 1, 0, 1⟩] "diagonal" =
      Except.error ("Unknown vertical alignment : " ++ "diagonal") ∧
    align_horizontal [⟨0, 1, 0, 1⟩] "up" =
      Except.error ("Unknown horizontal alignment : " ++ "up") :=
  unknown_mode_errors [⟨0, 1, 0, 1⟩] "diagonal" "up"
    (by decide) (by decide) (by decide)

/-- Per-element effect of an alignment map on the selected anchor's
y-coordinate and on all x-coordinates. -/
lemma aligned_map_y_spec (d0 : Diagram) (rest : List Diagram)
    (a : AnchorName) (i : ℕ) (hi : i < (d0 :: rest).length) :
    (get_anchor (((d0 :: rest).map fun d =>
        d.translate (V2 0 ((get_anchor d0 a).y - (get_anchor d a).y))).getD
          i default) a).y = (get_anchor d0 a).y ∧
    ∀ b, (get_anchor (((d0 :: rest).map fun d =>
        d.translate (V2 0 ((get_anchor d0 a).y - (get_anchor d a).y))).getD
          i default) b).x = (get_anchor ((d0 :: rest).getD i default) b).x := by
  rw [getD_map_lt _ _ _ hi]
  constructor
  · rw [get_anchor_translate]
    simp [V2]
  · intro b
    rw [get_anchor_translate]
    simp [V2]

/-- C1: for every non-empty sequence and vertical mode in
{top, center, bottom}, `align_vertical` succeeds and every output element's
anchor at the mode-corresponding position (top-left / center-left /
bottom-left) has the y-coordinate of the first input element's original
anchor there, while every anchor's x-coordinate is unchanged from the
element's own original x-coordinate. -/
theorem align_vertical_aligns (S : List Diagram) (m : String) (a : AnchorName)
    (hS : S ≠ [])
    (hm : (m = "top" ∧ a = AnchorName.topLeft) ∨
          (m = "center" ∧ a = AnchorName.centerLeft) ∨
          (m = "bottom" ∧ a = AnchorName.bottomLeft)) :
    ∃ out, align_vertical S m = Except.ok out ∧ out.length = S.length ∧
      ∀ i, i < S.length →
        (get_anchor (out.getD i default) a).y =
          (get_anchor (S.getD 0 default) a).y ∧
        ∀ b, (get_anchor (out.getD i default) b).x =
          (get_anchor (S.getD i default) b).x := by
  obtain ⟨d0, rest, rfl⟩ := List.exists_cons_of_ne_nil hS
  rcases hm with ⟨hm, ha⟩ | ⟨hm, ha⟩ | ⟨hm, ha⟩ <;> subst hm <;> subst ha
  · refine ⟨_, align_vertical_cons_top d0 rest, by simp, ?_⟩
    intro i hi
    simpa using aligned_map_y_spec d0 rest AnchorName.topLeft i hi
  · refine ⟨_, align_vertical_cons_center d0 rest, by simp, ?_⟩
    intro i hi
    simpa using aligned_map_y_spec d0 rest AnchorName.centerLeft i hi
  · refine ⟨_, align_vertical_cons_bottom d0 rest, by simp, ?_⟩
    intro i hi
    simpa using aligned_map_y_spec d0 rest AnchorName.bottomLeft i hi

/-- Witness for C1 on a concrete two-element sequence with mode "top". -/
theorem align_vertical_aligns_witness :
    ∃ out, align_vertical [⟨0, 1, 0, 1⟩, ⟨5, 7, 2, 3⟩] "top" = Except.ok out ∧
      out.length = ([⟨0, 1, 0, 1⟩, ⟨5, 7, 2, 3⟩] : List Diagram).length ∧
      ∀ i, i < ([⟨0, 1, 0, 1⟩, ⟨5, 7, 2, 3⟩] : List Diagram).length →
        (get_anchor (out.getD i default) AnchorName.topLeft).y =
          (get_anchor (([⟨0, 1, 0, 1⟩, ⟨5, 7, 2, 3⟩] : List Diagram).getD
            0 default) AnchorName.topLeft).y ∧
        ∀ b, (get_anchor (out.getD i default) b).x =
          (get_anchor (([⟨0, 1, 0, 1⟩, ⟨5, 7, 2, 3⟩] : List Diagram).getD
            i default) b).x :=
  align_vertical_aligns [⟨0, 1, 0, 1⟩, ⟨5, 7, 2, 3⟩] "top" AnchorName.topLeft
    (by decide) (Or.inl ⟨rfl, rfl⟩)

/-! ### Characterization of the distribution loops -/

/-- One placement step of the horizontal distribution loop. -/
def placeH (space : ℚ) (prev this_diagram : Diagram) : Diagram :=
  this_diagram.translate
    (V2 ((get_anchor prev AnchorName.topRight).x -
      (get_anchor this_diagram AnchorName.topLeft).x + space) 0)

/-- One placement step of the vertical distribution loop. -/
def placeV (space : ℚ) (prev this_diagram : Diagram) : Diagram :=
  this_diagram.translate
    (V2 0 ((get_anchor prev AnchorName.bottomLeft).y -
      (get_anchor this_diagram AnchorName.topLeft).y - space))

lemma distribute_horizontal_go_cons (space : ℚ) (prev hd : Diagram)
    (tl : List Diagram) :
    distribute_horizontal_go space prev (hd :: tl) =
      placeH space prev hd ::
        distribute_horizontal_go space (placeH space prev hd) tl := rfl

lemma distribute_vertical_go_cons (space : ℚ) (prev hd : Diagram)
    (tl : List Diagram) :
    distribute_vertical_go space prev (hd :: tl) =
      placeV space prev hd ::
        distribute_vertical_go space (placeV space prev hd) tl := rfl

lemma distribute_horizontal_go_length (space : ℚ) (prev : Diagram)
    (l : List Diagram) :
    (distribute_horizontal_go space prev l).length = l.length := by
  induction l generalizing prev with
  | nil => rfl
  | cons hd tl ih => simp [distribute_horizontal_go_cons, ih]

lemma distribute_vertical_go_length (space : ℚ) (prev : Diagram)
    (l : List Diagram) :
    (distribute_vertical_go space prev l).length = l.length := by
  induction l generalizing prev with
  | nil => rfl
  | cons hd tl ih => simp [distribute_vertical_go_cons, ih]

/-- Each element of the horizontal distribution loop's output is the input
element placed against the previously *placed* diagram (the seed `prev` at
index 0, the output's previous element otherwise). -/
lemma distribute_horizontal_go_getD (space : ℚ) (l : List Diagram) :
    ∀ (prev : Diagram) (i : ℕ), i < l.length →
      (distribute_horizontal_go space prev l).getD i default =
        placeH space
          (if i = 0 then prev
            else (distribute_horizontal_go space prev l).getD (i - 1) default)
          (l.getD i default) := by
  induction l with
  | nil =>
    intro prev i hi
    simp at hi
  | cons hd tl ih =>
    intro prev i hi
    cases i with
    | zero => simp [distribute_horizontal_go_cons]
    | succ j =>
      have hj : j < tl.length := by simpa using hi
      have h := ih (placeH space prev hd) j hj
      cases j with
      | zero => simpa [distribute_horizontal_go_cons] using h
      | succ k => simpa [distribute_horizontal_go_cons] using h

/-- Vertical analogue of `distribute_horizontal_go_getD`. -/
lemma distribute_vertical_go_getD (space : ℚ) (l : List Diagram) :
    ∀ (prev : Diagram) (i : ℕ), i < l.length →
      (distribute_vertical_go space prev l).getD i default =
        placeV space
          (if i = 0 then prev
            else (distribute_vertical_go space prev l).getD (i - 1) default)
          (l.getD i default) := by
  induction l with
  | nil =>
    intro prev i hi
    simp at hi
  | cons hd tl ih =>
    intro prev i hi
    cases i with
    | zero => simp [distribute_vertical_go_cons]
    | succ j =>
      have hj : j < tl.length := by simpa using hi
      have h := ih (placeV space prev hd) j hj
      cases j with
      | zero => simpa [distribute_vertical_go_cons] using h
      | succ k => simpa [distribute_vertical_go_cons] using h

/-- At indices ≥ 1, `distribute_horizontal` places the original input
element against the output's previous element. -/
lemma distribute_horizontal_getD (S : List Diagram) (gap : ℚ) (i : ℕ)
    (h1 : 1 ≤ i) (hi : i < S.length) :
    (distribute_horizontal S gap).getD i default =
      placeH gap ((distribute_horizontal S gap).getD (i - 1) default)
        (S.getD i default) := by
  cases S with
  | nil => simp at hi
  | cons d0 rest =>
    cases i with
    | zero => simp at h1
    | succ j =>
      have hj : j < rest.length := by simpa using hi
      have h := distribute_horizontal_go_getD gap rest d0 j hj
      simp only [distribute_horizontal, List.getD_cons_succ]
      cases j with
      | zero => simpa using h
      | succ k => simpa using h

/-- Vertical analogue of `distribute_horizontal_getD`. -/
lemma distribute_vertical_getD (S : List Diagram) (gap : ℚ) (i : ℕ)
    (h1 : 1 ≤ i) (hi : i < S.length) :
    (distribute_vertical S gap).getD i default =
      placeV gap ((distribute_vertical S gap).getD (i - 1) default)
        (S.getD i default) := by
  cases S with
  | nil => simp at hi
  | cons d0 rest =>
    cases i with
    | zero => simp at h1
    | succ j =>
      have hj : j < rest.length := by simpa using hi
      have h := distribute_vertical_go_getD gap rest d0 j hj
      simp only [distribute_vertical, List.getD_cons_succ]
      cases j with
      | zero => simpa using h
      | succ k => simpa using h

/-- C2: `distribute_horizontal` keeps the first element as the unmoved
input, translates each later original element by
`dx = prev.anchor(top-right).x − this.anchor(top-left).x + gap` where
`prev` is the already-placed output element, and consequently consecutive
output elements satisfy
`output[i].anchor(top-left).x − output[i-1].anchor(top-right).x = gap`. -/
theorem distribute_horizontal_spec (S : List Diagram) (gap : ℚ) :
    (distribute_horizontal S gap).length = S.length ∧
    (S ≠ [] → (distribute_horizontal S gap).getD 0 default = S.getD 0 default) ∧
    ∀ i, 1 ≤ i → i < S.length →
      (distribute_horizontal S gap).getD i default =
        (S.getD i default).translate
          (V2 ((get_anchor ((distribute_horizontal S gap).getD (i - 1) default)
              AnchorName.topRight).x -
            (get_anchor (S.getD i default) AnchorName.topLeft).x + gap) 0) ∧
      (get_anchor ((distribute_horizontal S gap).getD i default)
          AnchorName.topLeft).x -
        (get_anchor ((distribute_horizontal S gap).getD (i - 1) default)
          AnchorName.topRight).x = gap := by
  refine ⟨?_, ?_, ?_⟩
  · cases S with
    | nil => rfl
    | cons d0 rest =>
      simp [distribute_horizontal, distribute_horizontal_go_length]
  · intro hS
    obtain ⟨d0, rest, rfl⟩ := List.exists_cons_of_ne_nil hS
    simp [distribute_horizontal]
  · intro i h1 hi
    have key := distribute_horizontal_getD S gap i h1 hi
    refine ⟨by simpa [placeH] using key, ?_⟩
    rw [key]
    simp only [placeH, get_anchor_translate, V2]
    ring

/-- C3: `distribute_vertical` translates each later original element by
`dy = prev_bottom − this_top − gap` (note the `− gap`, sign opposite to the
horizontal case), where `prev` is the already-placed output element, and
consequently consecutive output elements satisfy
`output[i-1].anchor(bottom-left).y − output[i].anchor(top-left).y = gap`. -/
theorem distribute_vertical_spec (S : List Diagram) (gap : ℚ) :
    (distribute_vertical S gap).length = S.length ∧
    (S ≠ [] → (distribute_vertical S gap).getD 0 default = S.getD 0 default) ∧
    ∀ i, 1 ≤ i → i < S.length →
      (distribute_vertical S gap).getD i default =
        (S.getD i default).translate
          (V2 0 ((get_anchor ((distribute_vertical S gap).getD (i - 1) default)
              AnchorName.bottomLeft).y -
            (get_anchor (S.getD i default) AnchorName.topLeft).y - gap)) ∧
      (get_anchor ((distribute_vertical S gap).getD (i - 1) default)
          AnchorName.bottomLeft).y -
        (get_anchor ((distribute_vertical S gap).getD i default)
          AnchorName.topLeft).y = gap := by
  refine ⟨?_, ?_, ?_⟩
  · cases S with
    | nil => rfl
    | cons d0 rest =>
      simp [distribute_vertical, distribute_vertical_go_length]
  · intro hS
    obtain ⟨d0, rest, rfl⟩ := List.exists_cons_of_ne_nil hS
    simp [distribute_vertical]
  · intro i h1 hi
    have key := distribute_vertical_getD S gap i h1 hi
    refine ⟨by simpa [placeV] using key, ?_⟩
    rw [key]
    simp only [placeV, get_anchor_translate, V2]
    ring

/-- Witness for C2 on a concrete two-element sequence with gap 10:
head unmoved, second element placed by the stated displacement, and the
gap identity at i = 1. -/
theorem distribute_horizontal_spec_witness :
    (distribute_horizontal [⟨0, 1, 0, 1⟩, ⟨5, 7, 2, 3⟩] 10).getD 0 default =
      ([⟨0, 1, 0, 1⟩, ⟨5, 7, 2, 3⟩] : List Diagram).getD 0 default ∧
    ((distribute_horizontal [⟨0, 1, 0, 1⟩, ⟨5, 7, 2, 3⟩] 10).getD 1 default =
      (([⟨0, 1, 0, 1⟩, ⟨5, 7, 2, 3⟩] : List Diagram).getD 1 default).translate
        (V2 ((get_anchor ((distribute_horizontal [⟨0, 1, 0, 1⟩, ⟨5, 7, 2, 3⟩]
            10).getD 0 default) AnchorName.topRight).x -
          (get_anchor (([⟨0, 1, 0, 1⟩, ⟨5, 7, 2, 3⟩] : List Diagram).getD
            1 default) AnchorName.topLeft).x + 10) 0) ∧
      (get_anchor ((distribute_horizontal [⟨0, 1, 0, 1⟩, ⟨5, 7, 2, 3⟩] 10).getD
          1 default) AnchorName.topLeft).x -
        (get_anchor ((distribute_horizontal [⟨0, 1, 0, 1⟩, ⟨5, 7, 2, 3⟩]
          10).getD 0 default) AnchorName.topRight).x = 10) :=
  ⟨(distribute_horizontal_spec [⟨0, 1, 0, 1⟩, ⟨5, 7, 2, 3⟩] 10).2.1 (by decide),
    (distribute_horizontal_spec [⟨0, 1, 0, 1⟩, ⟨5, 7, 2, 3⟩] 10).2.2 1
      (by decide) (by decide)⟩

/-- Witness for C3 on a concrete two-element sequence with gap 4. -/
theorem distribute_vertical_spec_witness :
    (distribute_vertical [⟨0, 1, 0, 1⟩, ⟨5, 7, 2, 3⟩] 4).getD 1 default =
      (([⟨0, 1, 0, 1⟩, ⟨5, 7, 2, 3⟩] : List Diagram).getD 1 default).translate
        (V2 0 ((get_anchor ((distribute_vertical [⟨0, 1, 0, 1⟩, ⟨5, 7, 2, 3⟩]
            4).getD 0 default) AnchorName.bottomLeft).y -
          (get_anchor (([⟨0, 1, 0, 1⟩, ⟨5, 7, 2, 3⟩] : List Diagram).getD
            1 default) AnchorName.topLeft).y - 4)) ∧
    (get_anchor ((distribute_vertical [⟨0, 1, 0, 1⟩, ⟨5, 7, 2, 3⟩] 4).getD
        0 default) AnchorName.bottomLeft).y -
      (get_anchor ((distribute_vertical [⟨0, 1, 0, 1⟩, ⟨5, 7, 2, 3⟩] 4).getD
        1 default) AnchorName.topLeft).y = 4 :=
  (distribute_vertical_spec [⟨0, 1, 0, 1⟩, ⟨5, 7, 2, 3⟩] 4).2.2 1
    (by decide) (by decide)

/-! ### Shape of the outputs: same length, element-wise translated -/

/-- `out` has the same length as `S` and each of its elements is a
translated image of the input element at the same index. -/
def elementwise_translated (S out : List Diagram) : Prop :=
  out.length = S.length ∧
  ∀ i, i < S.length → ∃ v, out.getD i default = (S.getD i default).translate v

lemma map_translate_shape (f : Diagram → Vector2) (l : List Diagram) :
    elementwise_translated l (l.map fun d => d.translate (f d)) := by
  refine ⟨by simp, ?_⟩
  intro i hi
  exact ⟨_, getD_map_lt _ _ _ hi⟩

lemma align_vertical_ok_shape (S out : List Diagram) (m : String)
    (h : align_vertical S m = Except.ok out) :
    elementwise_translated S out := by
  cases S with
  | nil =>
    simp only [align_vertical, Except.ok.injEq] at h
    subst h
    exact ⟨rfl, fun i hi => by simp at hi⟩
  | cons d0 rest =>
    by_cases h1 : m = "top"
    · subst h1
      rw [align_vertical_cons_top, Except.ok.injEq] at h
      subst h
      exact map_translate_shape _ _
    · by_cases h2 : m = "center"
      · subst h2
        rw [align_vertical_cons_center, Except.ok.injEq] at h
        subst h
        exact map_translate_shape _ _
      · by_cases h3 : m = "bottom"
        · subst h3
          rw [align_vertical_cons_bottom, Except.ok.injEq] at h
          subst h
          exact map_translate_shape _ _
        · rw [align_vertical_cons_unknown d0 rest m (by tauto)] at h
          simp at h

lemma align_horizontal_ok_shape (S out : List Diagram) (m : String)
    (h : align_horizontal S m = Except.ok out) :
    elementwise_translated S out := by
  cases S with
  | nil =>
    simp only [align_horizontal, Except.ok.injEq] at h
    subst h
    exact ⟨rfl, fun i hi => by simp at hi⟩
  | cons d0 rest =>
    by_cases h1 : m = "left"
    · subst h1
      rw [align_horizontal_cons_left, Except.ok.injEq] at h
      subst h
      exact map_translate_shape _ _
    · by_cases h2 : m = "center"
      · subst h2
        rw [align_horizontal_cons_center, Except.ok.injEq] at h
        subst h
        exact map_translate_shape _ _
      · by_cases h3 : m = "right"
        · subst h3
          rw [align_horizontal_cons_right, Except.ok.injEq] at h
          subst h
          exact map_translate_shape _ _
        · rw [align_horizontal_cons_unknown d0 rest m (by tauto)] at h
          simp at h

lemma distribute_horizontal_length (S : List Diagram) (gap : ℚ) :
    (distribute_horizontal S gap).length = S.length := by
  cases S with
  | nil => rfl
  | cons d0 rest => simp [distribute_horizontal, distribute_horizontal_go_length]

lemma distribute_vertical_length (S : List Diagram) (gap : ℚ) :
    (distribute_vertical S gap).length = S.length := by
  cases S with
  | nil => rfl
  | cons d0 rest => simp [distribute_vertical, distribute_vertical_go_length]

lemma distribute_horizontal_head (S : List Diagram) (gap : ℚ) (hS : S ≠ []) :
    (distribute_horizontal S gap).getD 0 default = S.getD 0 default := by
  obtain ⟨d0, rest, rfl⟩ := List.exists_cons_of_ne_nil hS
  simp [distribute_horizontal]

lemma distribute_vertical_head (S : List Diagram) (gap : ℚ) (hS : S ≠ []) :
    (distribute_vertical S gap).getD 0 default = S.getD 0 default := by
  obtain ⟨d0, rest, rfl⟩ := List.exists_cons_of_ne_nil hS
  simp [distribute_vertical]

lemma distribute_horizontal_shape (S : List Diagram) (gap : ℚ) :
    elementwise_translated S (distribute_horizontal S gap) := by
  refine ⟨distribute_horizontal_length S gap, ?_⟩
  intro i hi
  cases i with
  | zero =>
    refine ⟨V2 0 0, ?_⟩
    rw [Diagram.translate_zero]
    exact distribute_horizontal_head S gap (by rintro rfl; simp at hi)
  | succ j =>
    have key := distribute_horizontal_getD S gap (j + 1) (by omega) hi
    exact ⟨_, by simpa [placeH] using key⟩

lemma distribute_vertical_shape (S : List Diagram) (gap : ℚ) :
    elementwise_translated S (distribute_vertical S gap) := by
  refine ⟨distribute_vertical_length S gap, ?_⟩
  intro i hi
  cases i with
  | zero =>
    refine ⟨V2 0 0, ?_⟩
    rw [Diagram.translate_zero]
    exact distribute_vertical_head S gap (by rintro rfl; simp at hi)
  | succ j =>
    have key := distribute_vertical_getD S gap (j + 1) (by omega) hi
    exact ⟨_, by simpa [placeV] using key⟩

/-- `elementwise_translated` composes along a two-step pipeline. -/
lemma elementwise_translated_trans (S l out : List Diagram)
    (h1 : elementwise_translated S l) (h2 : elementwise_translated l out) :
    elementwise_translated S out := by
  obtain ⟨hl1, he1⟩ := h1
  obtain ⟨hl2, he2⟩ := h2
  refine ⟨hl2.trans hl1, ?_⟩
  intro i hi
  obtain ⟨v1, hv1⟩ := he1 i hi
  obtain ⟨v2, hv2⟩ := he2 i (by omega)
  exact ⟨⟨v1.x + v2.x, v1.y + v2.y⟩,
    by rw [hv2, hv1, Diagram.translate_translate]⟩

/-- C6: every sequence-returning operation (`align_vertical`,
`align_horizontal`, `distribute_horizontal`, `distribute_vertical`, and the
two align-then-distribute compositions) returns, whenever it returns a
sequence, a sequence of the same length as its input whose element at each
index is a translated image of the input element at that index — nothing
dropped, added, or reordered. -/
theorem seq_ops_preserve_length_and_index (S : List Diagram) (g : ℚ)
    (m : String) :
    (∀ out, align_vertical S m = Except.ok out →
      elementwise_translated S out) ∧
    (∀ out, align_horizontal S m = Except.ok out →
      elementwise_translated S out) ∧
    elementwise_translated S (distribute_horizontal S g) ∧
    elementwise_translated S (distribute_vertical S g) ∧
    (∀ out, distribute_horizontal_and_align S g m = Except.ok out →
      elementwise_translated S out) ∧
    (∀ out, distribute_vertical_and_align S g m = Except.ok out →
      elementwise_translated S out) := by
  refine ⟨fun out h => align_vertical_ok_shape S out m h,
    fun out h => align_horizontal_ok_shape S out m h,
    distribute_horizontal_shape S g,
    distribute_vertical_shape S g, ?_, ?_⟩
  · intro out h
    cases hav : align_vertical S m with
    | error e => simp [distribute_horizontal_and_align, hav] at h
    | ok l =>
      simp only [distribute_horizontal_and_align, hav, Except.ok.injEq] at h
      subst h
      exact elementwise_translated_trans _ _ _
        (align_vertical_ok_shape S l m hav) (distribute_horizontal_shape l g)
  · intro out h
    cases hah : align_horizontal S m with
    | error e => simp [distribute_vertical_and_align, hah] at h
    | ok l =>
      simp only [distribute_vertical_and_align, hah, Except.ok.injEq] at h
      subst h
      exact elementwise_translated_trans _ _ _
        (align_horizontal_ok_shape S l m hah) (distribute_vertical_shape l g)

/-- Witness for C6 on a concrete two-element sequence: the distribution
part directly, and the alignment part with its success hypothesis
discharged at mode "top". -/
theorem seq_ops_preserve_length_and_index_witness :
    elementwise_translated [⟨0, 1, 0, 1⟩, ⟨5, 7, 2, 3⟩]
      (distribute_horizontal [⟨0, 1, 0, 1⟩, ⟨5, 7, 2, 3⟩] 3) ∧
    elementwise_translated [⟨0, 1, 0, 1⟩, ⟨5, 7, 2, 3⟩]
      (([⟨0, 1, 0, 1⟩, ⟨5, 7, 2, 3⟩] : List Diagram).map fun d =>
        d.translate (V2 0
          ((get_anchor (⟨0, 1, 0, 1⟩ : Diagram) AnchorName.topLeft).y -
            (get_anchor d AnchorName.topLeft).y))) :=
  ⟨(seq_ops_preserve_length_and_index [⟨0, 1, 0, 1⟩, ⟨5, 7, 2, 3⟩]
      3 "top").2.2.1,
    (seq_ops_preserve_length_and_index [⟨0, 1, 0, 1⟩, ⟨5, 7, 2, 3⟩]
      3 "top").1 _ (align_vertical_cons_top _ _)⟩

/-- A map that fixes every member of a list leaves the list unchanged. -/
lemma map_eq_self_of_fix (l : List Diagram) (g : Diagram → Diagram)
    (h : ∀ d ∈ l, g d = d) : l.map g = l := by
  induction l with
  | nil => rfl
  | cons hd tl ih =>
    rw [List.map_cons, h hd (by simp), ih (fun d hd2 => h d (by simp [hd2]))]

/-- Re-aligning a list whose selected-anchor y-coordinates already all
agree is the identity (all displacements are zero). -/
lemma align_fixpoint (d0 : Diagram) (a : AnchorName) (e0 : Diagram)
    (el : List Diagram)
    (h0 : (get_anchor e0 a).y = (get_anchor d0 a).y)
    (hmem : ∀ d ∈ el, (get_anchor d a).y = (get_anchor d0 a).y) :
    ((e0 :: el).map fun d =>
      d.translate (V2 0 ((get_anchor e0 a).y - (get_anchor d a).y))) =
      e0 :: el := by
  refine map_eq_self_of_fix _ _ ?_
  intro d hd
  have h2 : (get_anchor d a).y = (get_anchor d0 a).y := by
    rcases List.mem_cons.mp hd with rfl | hm
    · exact h0
    · exact hmem d hm
  rw [h0, h2, sub_self, Diagram.translate_zero]

/-- C7: `align_vertical` is idempotent — applying it (same valid mode) to
its own output computes zero displacements, returning the output
unchanged. -/
theorem align_vertical_idempotent (S out : List Diagram) (m : String)
    (hm : m = "top" ∨ m = "center" ∨ m = "bottom")
    (h : align_vertical S m = Except.ok out) :
    align_vertical out m = Except.ok out := by
  cases S with
  | nil =>
    simp only [align_vertical, Except.ok.injEq] at h
    subst h
    rfl
  | cons d0 rest =>
    rcases hm with rfl | rfl | rfl
    · rw [align_vertical_cons_top, Except.ok.injEq] at h
      subst h
      rw [List.map_cons, align_vertical_cons_top]
      refine congrArg Except.ok
        (align_fixpoint d0 AnchorName.topLeft _ _ ?_ ?_)
      · rw [get_anchor_translate]
        simp [V2]
      · intro d hd
        obtain ⟨x, hx, rfl⟩ := List.mem_map.mp hd
        rw [get_anchor_translate]
        simp [V2]
    · rw [align_vertical_cons_center, Except.ok.injEq] at h
      subst h
      rw [List.map_cons, align_vertical_cons_center]
      refine congrArg Except.ok
        (align_fixpoint d0 AnchorName.centerLeft _ _ ?_ ?_)
      · rw [get_anchor_translate]
        simp [V2]
      · intro d hd
        obtain ⟨x, hx, rfl⟩ := List.mem_map.mp hd
        rw [get_anchor_translate]
        simp [V2]
    · rw [align_vertical_cons_bottom, Except.ok.injEq] at h
      subst h
      rw [List.map_cons, align_vertical_cons_bottom]
      refine congrArg Except.ok
        (align_fixpoint d0 AnchorName.bottomLeft _ _ ?_ ?_)
      · rw [get_anchor_translate]
        simp [V2]
      · intro d hd
        obtain ⟨x, hx, rfl⟩ := List.mem_map.mp hd
        rw [get_anchor_translate]
        simp [V2]

/-- Witness for C7: re-aligning the concrete "top"-aligned output of a
two-element sequence returns it unchanged. -/
theorem align_vertical_idempotent_witness :
    align_vertical
      (([⟨0, 1, 0, 1⟩, ⟨5, 7, 2, 3⟩] : List Diagram).map fun d =>
        d.translate (V2 0
          ((get_anchor (⟨0, 1, 0, 1⟩ : Diagram) AnchorName.topLeft).y -
            (get_anchor d AnchorName.topLeft).y))) "top" =
      Except.ok
        (([⟨0, 1, 0, 1⟩, ⟨5, 7, 2, 3⟩] : List Diagram).map fun d =>
          d.translate (V2 0
            ((get_anchor (⟨0, 1, 0, 1⟩ : Diagram) AnchorName.topLeft).y -
              (get_anchor d AnchorName.topLeft).y))) :=
  align_vertical_idempotent [⟨0, 1, 0, 1⟩, ⟨5, 7, 2, 3⟩] _ "top"
    (Or.inl rfl) (align_vertical_cons_top _ _)

/-- C8: the align-then-distribute compositions are exactly the two-step
pipelines — whenever the alignment step succeeds with sequence `l`, the
composition returns precisely the distribution of `l`, with no further
transformation or state. -/
theorem compositions_equal_pipeline (S : List Diagram) (g : ℚ)
    (mv mh : String) :
    (∀ l, align_vertical S mv = Except.ok l →
      distribute_horizontal_and_align S g mv =
        Except.ok (distribute_horizontal l g)) ∧
    (∀ l, align_horizontal S mh = Except.ok l →
      distribute_vertical_and_align S g mh =
        Except.ok (distribute_vertical l g)) := by
  constructor
  · intro l h
    simp [distribute_horizontal_and_align, h]
  · intro l h
    simp [distribute_vertical_and_align, h]

/-- Witness for C8 at mode "top" on a concrete two-element sequence. -/
theorem compositions_equal_pipeline_witness :
    distribute_horizontal_and_align [⟨0, 1, 0, 1⟩, ⟨5, 7, 2, 3⟩] 3 "top" =
      Except.ok (distribute_horizontal
        (([⟨0, 1, 0, 1⟩, ⟨5, 7, 2, 3⟩] : List Diagram).map fun d =>
          d.translate (V2 0
            ((get_anchor (⟨0, 1, 0, 1⟩ : Diagram) AnchorName.topLeft).y -
              (get_anchor d AnchorName.topLeft).y))) 3) :=
  (compositions_equal_pipeline [⟨0, 1, 0, 1⟩, ⟨5, 7, 2, 3⟩] 3 "top"
    "left").1 _ (align_vertical_cons_top _ _)

/-- C9: every combine-variant applies `diagram_combine` to the full output
sequence of the corresponding base operation with the same arguments, in
order, adding nothing — so the member positions inside the merged result
equal the base operation's output element-wise. -/
theorem combine_variants_wrap_base (S : List Diagram) (g : ℚ)
    (mv mh : String) :
    (∀ l, align_vertical S mv = Except.ok l →
      align_vertical_c S mv = Except.ok (diagram_combine l) ∧
      (diagram_combine l).members = l) ∧
    (∀ l, align_horizontal S mh = Except.ok l →
      align_horizontal_c S mh = Except.ok (diagram_combine l) ∧
      (diagram_combine l).members = l) ∧
    (distribute_horizontal_c S g =
        diagram_combine (distribute_horizontal S g) ∧
      (distribute_horizontal_c S g).members = distribute_horizontal S g) ∧
    (distribute_vertical_c S g = diagram_combine (distribute_vertical S g) ∧
      (distribute_vertical_c S g).members = distribute_vertical S g) ∧
    (∀ l, distribute_horizontal_and_align S g mv = Except.ok l →
      distribute_horizontal_and_align_c S g mv =
        Except.ok (diagram_combine l) ∧
      (diagram_combine l).members = l) ∧
    (∀ l, distribute_vertical_and_align S g mh = Except.ok l →
      distribute_vertical_and_align_c S g mh =
        Except.ok (diagram_combine l) ∧
      (diagram_combine l).members = l) := by
  refine ⟨?_, ?_, ⟨rfl, rfl⟩, ⟨rfl, rfl⟩, ?_, ?_⟩
  · intro l h
    exact ⟨by simp [align_vertical_c, h], rfl⟩
  · intro l h
    exact ⟨by simp [align_horizontal_c, h], rfl⟩
  · intro l h
    exact ⟨by simp [distribute_horizontal_and_align_c, h], rfl⟩
  · intro l h
    exact ⟨by simp [distribute_vertical_and_align_c, h], rfl⟩

/-- Witness for C9: the vertical-align combine-variant at mode "top" on a
concrete two-element sequence. -/
theorem combine_variants_wrap_base_witness :
    align_vertical_c [⟨0, 1, 0, 1⟩, ⟨5, 7, 2, 3⟩] "top" =
      Except.ok (diagram_combine
        (([⟨0, 1, 0, 1⟩, ⟨5, 7, 2, 3⟩] : List Diagram).map fun d =>
          d.translate (V2 0
            ((get_anchor (⟨0, 1, 0, 1⟩ : Diagram) AnchorName.topLeft).y -
              (get_anchor d AnchorName.topLeft).y)))) ∧
    (diagram_combine
        (([⟨0, 1, 0, 1⟩, ⟨5, 7, 2, 3⟩] : List Diagram).map fun d =>
          d.translate (V2 0
            ((get_anchor (⟨0, 1, 0, 1⟩ : Diagram) AnchorName.topLeft).y -
              (get_anchor d AnchorName.topLeft).y)))).members =
      (([⟨0, 1, 0, 1⟩, ⟨5, 7, 2, 3⟩] : List Diagram).map fun d =>
        d.translate (V2 0
          ((get_anchor (⟨0, 1, 0, 1⟩ : Diagram) AnchorName.topLeft).y -
            (get_anchor d AnchorName.topLeft).y))) :=
  (combine_variants_wrap_base [⟨0, 1, 0, 1⟩, ⟨5, 7, 2, 3⟩] 0 "top"
    "left").1 _ (align_vertical_cons_top _ _)
